import Mathlib

/-
Verification of the descriptor-to-proto-text renderer in reverse.py.

The Python source walks a tree of protobuf descriptors and emits .proto
text. We embed the descriptor records as Lean structures and each
generator function as a pure Lean function. Imperative writes to the
open output file are modelled by returning the text written so far
together with an optional Python exception: a generator that raises
mid-way returns the prefix it had already written (the real code writes
straight to the open file, so that prefix is exactly what is on disk
when the exception propagates).
-/

/-- A Python exception, as raised by the source. -/
inductive PyErr where
  | nameError (msg : String)
  | keyError
  | typeError
  | indexError
deriving DecidableEq

/- ---------- descriptor data model (google.protobuf.descriptor_pb2) ---------- -/

structure FieldOptions where
  packed : Bool
deriving DecidableEq

structure FieldDescriptorProto where
  name : String
  number : Nat
  type : Nat
  type_name : String
  label : Nat
  options : FieldOptions
deriving DecidableEq

structure EnumValueDescriptorProto where
  name : String
  number : Int
deriving DecidableEq

structure EnumOptions where
  allow_alias : Bool
deriving DecidableEq

structure EnumDescriptorProto where
  name : String
  value : List EnumValueDescriptorProto
  options : EnumOptions
deriving DecidableEq

structure MessageOptions where
  map_entry : Bool
deriving DecidableEq

inductive DescriptorProto where
  | mk (name : String) (field : List FieldDescriptorProto)
       (nested_type : List DescriptorProto)
       (enum_type : List EnumDescriptorProto)
       (options : MessageOptions)

def DescriptorProto.name : DescriptorProto → String
  | .mk n _ _ _ _ => n

def DescriptorProto.field : DescriptorProto → List FieldDescriptorProto
  | .mk _ f _ _ _ => f

def DescriptorProto.nested_type : DescriptorProto → List DescriptorProto
  | .mk _ _ nt _ _ => nt

def DescriptorProto.enum_type : DescriptorProto → List EnumDescriptorProto
  | .mk _ _ _ et _ => et

def DescriptorProto.options : DescriptorProto → MessageOptions
  | .mk _ _ _ _ o => o

structure MethodDescriptorProto where
  name : String
  input_type : String
  output_type : String
  client_streaming : Bool
  server_streaming : Bool
deriving DecidableEq

structure ServiceDescriptorProto where
  name : String
  method : List MethodDescriptorProto
deriving DecidableEq

structure FileDescriptorProto where
  name : String
  package : String
  syn : String
  dependency : List String
  message_type : List DescriptorProto
  enum_type : List EnumDescriptorProto
  service : List ServiceDescriptorProto

/- ---------- type-code constants from reverse.py ---------- -/

def TYPE_DOUBLE : Nat := 1
def TYPE_FLOAT : Nat := 2
def TYPE_INT64 : Nat := 3
def TYPE_UINT64 : Nat := 4
def TYPE_INT32 : Nat := 5
def TYPE_FIXED64 : Nat := 6
def TYPE_FIXED32 : Nat := 7
def TYPE_BOOL : Nat := 8
def TYPE_STRING : Nat := 9
def TYPE_GROUP : Nat := 10
def TYPE_MESSAGE : Nat := 11
def TYPE_BYTES : Nat := 12
def TYPE_UINT32 : Nat := 13
def TYPE_ENUM : Nat := 14
def TYPE_SFIXED32 : Nat := 15
def TYPE_SFIXED64 : Nat := 16
def TYPE_SINT32 : Nat := 17
def TYPE_SINT64 : Nat := 18

/-- field.LABEL_REPEATED in descriptor_pb2. -/
def LABEL_REPEATED : Nat := 3

/-- The TYPE_LABELS dict of reverse.py, insertion order preserved.
Note the source really spells the entry for TYPE_BYTES as "byes". -/
def TYPE_LABELS : List (Nat × String) :=
  [ (TYPE_DOUBLE, "double"),
    (TYPE_FLOAT, "float"),
    (TYPE_INT64, "int64"),
    (TYPE_UINT64, "uint64"),
    (TYPE_INT32, "int32"),
    (TYPE_FIXED64, "fixed64"),
    (TYPE_FIXED32, "fixed32"),
    (TYPE_BOOL, "bool"),
    (TYPE_STRING, "string"),
    (TYPE_BYTES, "byes"),
    (TYPE_UINT32, "uint32"),
    (TYPE_SFIXED32, "sfixed32"),
    (TYPE_SFIXED64, "sfixed64"),
    (TYPE_SINT32, "sint32"),
    (TYPE_SINT64, "sint64") ]

/- ---------- generators ---------- -/

/-- One character list is a leading segment of another. -/
def charsStart : List Char → List Char → Bool
  | _, [] => true
  | [], _ :: _ => false
  | a :: as, b :: bs => a = b && charsStart as bs

/-- Python str.startswith. -/
def strStartsWith (s pre : String) : Bool :=
  charsStart s.toList pre.toList

/-- Python str.split(sep): split a character list at every occurrence of the
separator; adjacent separators and ends yield empty segments, and the result
is never the empty list. -/
def splitChars (sep : Char) : List Char → List (List Char)
  | [] => [[]]
  | a :: as =>
    let r := splitChars sep as
    if a = sep then [] :: r
    else
      match r with
      | [] => [[a]]
      | g :: gs => (a :: g) :: gs

/-- Python str.split(sep=".")[-1]: the last dot-separated segment.
The split result is never empty, so the default is unused. -/
def lastSegment (s : String) : String :=
  String.mk ((splitChars '.' s.toList).getLastD [])

/-- __extract_field_type_str.  A dict lookup miss in Python raises KeyError. -/
def extractFieldTypeStr (f : FieldDescriptorProto) : Except PyErr String :=
  if f.type = TYPE_ENUM ∨ f.type = TYPE_MESSAGE then
    .ok (lastSegment f.type_name)
  else if f.type = TYPE_GROUP then
    .error (.nameError "GROUP")
  else
    match TYPE_LABELS.lookup f.type with
    | some s => .ok s
    | none => .error .keyError

/-- __generate_field.  Returns the text written to the file and an optional
exception.  When the options dict is non-empty the source writes "[" and then
runs `for o in field.options`; field.options is a protobuf message object,
which is not iterable, so Python raises TypeError at that point with only
the "[" of the bracket group on disk. -/
def generateField (f : FieldDescriptorProto) (map_entries : List (String × String))
    (level : String) : String × Option PyErr :=
  match extractFieldTypeStr f with
  | .error e => ("", some e)
  | .ok ts =>
    let resolved : String × Bool :=
      match map_entries.lookup ts with
      | some v => (v, true)
      | none => (ts, false)
    let type_str := resolved.1
    let is_map := resolved.2
    let options : List (String × String) :=
      if f.options.packed then [("packed", "true")] else []
    let repeatKw := if f.label = LABEL_REPEATED ∧ is_map = false then "repeated " else ""
    let line := level ++ repeatKw ++ type_str ++ " " ++ f.name ++ " = " ++ toString f.number
    if options.length > 0 then
      (line ++ "[", some .typeError)
    else
      (line ++ ";\n", none)

/-- __generate_enum: never raises. -/
def generateEnum (e : EnumDescriptorProto) (level : String) : String :=
  level ++ "enum " ++ e.name ++ " \x7b\n" ++
  (if e.options.allow_alias then level ++ " option allow_alias = true;\n" else "") ++
  String.join (e.value.map (fun v => level ++ "  " ++ v.name ++ " = " ++ toString v.number ++ ";\n")) ++
  level ++ "\x7d\n"

/-- __extract_map_shortcut.  m.field[0] / m.field[1] raise IndexError when the
sequence is too short; a raised NameError from the type extraction propagates. -/
def extractMapShortcut (m : DescriptorProto) : Except PyErr String :=
  match m.field.get? 0 with
  | none => .error .indexError
  | some f0 =>
    match m.field.get? 1 with
    | none => .error .indexError
    | some f1 =>
      match extractFieldTypeStr f0 with
      | .error e => .error e
      | .ok k =>
        match extractFieldTypeStr f1 with
        | .error e => .error e
        | .ok v => .ok ("map<" ++ k ++ "," ++ v ++ ">")

/-- Python dict assignment d[k] = v: overwriting keeps the key's original
position, a new key is appended (insertion order is preserved). -/
def dictInsert (k v : String) (d : List (String × String)) : List (String × String) :=
  if (d.lookup k).isSome then d.map (fun e => if e.1 = k then (k, v) else e)
  else d ++ [(k, v)]

/-- The field loop at the end of __generate_message; a raised exception stops
the loop with the text written so far. -/
def generateFields : List FieldDescriptorProto → List (String × String) → String →
    String × Option PyErr
  | [], _, _ => ("", none)
  | f :: fs, me, level =>
    let r := generateField f me level
    match r.2 with
    | some e => (r.1, some e)
    | none =>
      let r2 := generateFields fs me level
      (r.1 ++ r2.1, r2.2)

mutual

/-- __generate_message. -/
def generateMessage : DescriptorProto → String → String × Option PyErr
  | .mk n fs nts ets _o, level =>
    let head := level ++ "message " ++ n ++ "\n" ++ level ++ "\x7b\n"
    let r := generateNested nts level []
    match r.1.2 with
    | some e => (head ++ r.1.1, some e)
    | none =>
      let enums := String.join (ets.map (fun e => generateEnum e (level ++ "  ")))
      let rf := generateFields fs r.2 (level ++ "  ")
      match rf.2 with
      | some e => (head ++ r.1.1 ++ enums ++ rf.1, some e)
      | none => (head ++ r.1.1 ++ enums ++ rf.1 ++ level ++ "\x7d\n", none)

/-- The nested_type loop of __generate_message: map-entry types are recorded
in the map_entries dict instead of being rendered; other nested types are
rendered recursively at indent+1.  Returns (text written, exception?) and
the final map_entries dict. -/
def generateNested : List DescriptorProto → String → List (String × String) →
    (String × Option PyErr) × List (String × String)
  | [], _, me => (("", none), me)
  | m :: ms, level, me =>
    if m.options.map_entry then
      match extractMapShortcut m with
      | .error e => (("", some e), me)
      | .ok sc => generateNested ms level (dictInsert m.name sc me)
    else
      let r := generateMessage m (level ++ "  ")
      match r.2 with
      | some e => ((r.1, some e), me)
      | none =>
        let r2 := generateNested ms level me
        ((r.1 ++ r2.1.1, r2.1.2), r2.2)

end

/-- Pathlib components of a relative path string (empty segments dropped,
as pathlib normalizes them away). -/
def splitPath (s : String) : List String :=
  ((splitChars '/' s.toList).map String.mk).filter (fun c => c ≠ "")

/-- str() of a pathlib path with the given components; pathlib renders the
empty relative path as ".". -/
def joinPath : List String → String
  | [] => "."
  | c :: cs => cs.foldl (fun acc x => acc ++ "/" ++ x) c

/-- pathlib Path.is_relative_to target current: current's components form a
leading segment of target's components. -/
def isRelativeTo : List String → List String → Bool
  | _, [] => true
  | [], _ :: _ => false
  | a :: as, b :: bs => a == b && isRelativeTo as bs

/-- The while-loop of __generate_import: climb from current_dir one parent at
a time, prepending one "../" per step, until target is under current. -/
def importUp (target : List String) (current : List String) (up : String) :
    String × List String :=
  if h : isRelativeTo target current then (up, current)
  else importUp target current.dropLast (up ++ "../")
termination_by current.length
decreasing_by
  cases current with
  | nil => exact absurd (by simp [isRelativeTo]) h
  | cons b bs => simp [List.length_dropLast]

/-- __generate_import.  Returns the text written ("" when the dependency is
skipped as well-known). -/
def generateImport (dep : String) (current_dir : List String) : String :=
  if strStartsWith dep "google" then ""
  else
    let target_file := "protobuf" :: splitPath dep
    let r := importUp target_file current_dir ""
    let rel := joinPath (target_file.drop r.2.length)
    "import \"" ++ r.1 ++ rel ++ "\";\n"

/-- __generate_rpc_method: never raises. -/
def generateRpcMethod (level : String) (m : MethodDescriptorProto) : String :=
  let in_mode := if m.client_streaming then "stream " else ""
  let in_type := lastSegment m.input_type
  let ret_mode := if m.server_streaming then "stream " else ""
  let ret_type := lastSegment m.output_type
  level ++ "rpc " ++ m.name ++ " (" ++ in_mode ++ in_type ++ ") returns (" ++
    ret_mode ++ ret_type ++ ");\n"

/-- __generate_service: never raises. -/
def generateService (s : ServiceDescriptorProto) : String :=
  "service " ++ s.name ++ " \x7b\n" ++
  String.join (s.method.map (generateRpcMethod "  ")) ++
  "\x7d\n"

/-- The message_type loop of __generate_file. -/
def generateMessages : List DescriptorProto → String × Option PyErr
  | [] => ("", none)
  | m :: ms =>
    let r := generateMessage m ""
    match r.2 with
    | some e => (r.1, some e)
    | none =>
      let r2 := generateMessages ms
      (r.1 ++ r2.1, r2.2)

/-- __generate_file, already deserialized: the text written to the output
file at protobuf/<name> together with the exception, if any, that aborted
the render.  The source writes each piece directly to the open file, so on
an exception the first component is exactly the partial file left on disk. -/
def generateFile (file : FileDescriptorProto) : String × Option PyErr :=
  let target_parts : List String := "protobuf" :: splitPath file.name
  let current_dir := target_parts.dropLast
  let header := "syntax = \"" ++ file.syn ++ "\";\n" ++
    (if file.package.length > 0 then "package " ++ file.package ++ ";\n" else "")
  let imports := String.join (file.dependency.map (fun d => generateImport d current_dir))
  let services := String.join (file.service.map generateService)
  let enums := String.join (file.enum_type.map (fun e => generateEnum e ""))
  let r := generateMessages file.message_type
  (header ++ imports ++ services ++ enums ++ r.1, r.2)

/- ---------- filesystem model for the file write ---------- -/

/-- The output tree as a path-to-content map; the head entry for a path is
its current content (open(path, "w") truncates and rewrites). -/
abbrev FS := List (String × String)

def setFile (path text : String) (fs : FS) : FS := (path, text) :: fs

def lookupFile (path : String) (fs : FS) : Option String := fs.lookup path

/-- Running __generate_file against a filesystem: the text produced so far is
on disk even when the render raised, because the with-block closes the file
and lets the exception propagate. -/
def runGenerateFile (file : FileDescriptorProto) (fs : FS) : FS :=
  setFile ("protobuf/" ++ file.name) (generateFile file).1 fs

/-- No file under the output root protobuf/ exists yet. -/
def cleanRoot (fs : FS) : Bool :=
  fs.all (fun e => !(e.1.startsWith "protobuf/"))

/- ---------- the descriptor graph walker ---------- -/

/-- google.protobuf.descriptor.FileDescriptor as the walker sees it: a name
and the already-resolved dependency descriptors.  Descriptor graphs are
acyclic, so a finite tree (shared files duplicated) represents them. -/
inductive GFileDescriptor where
  | node (name : String) (dependencies : List GFileDescriptor)

def GFileDescriptor.name : GFileDescriptor → String
  | .node n _ => n

def GFileDescriptor.dependencies : GFileDescriptor → List GFileDescriptor
  | .node _ ds => ds

mutual

/-- __reverse_grpc_descriptor.  The first component lists, in order, the
descriptors passed to __generate_file (one output file each); the second is
the processed set (as a list, newest first) after the call. -/
def reverseGrpcDescriptor : GFileDescriptor → List String →
    List GFileDescriptor × List String
  | .node n ds, processed =>
    if n ∈ processed then ([], processed)
    else
      let r := reverseGrpcDeps ds processed
      (r.1 ++ [.node n ds], n :: r.2)

/-- The dependency loop of __reverse_grpc_descriptor. -/
def reverseGrpcDeps : List GFileDescriptor → List String →
    List GFileDescriptor × List String
  | [], processed => ([], processed)
  | d :: ds, processed =>
    let r := reverseGrpcDescriptor d processed
    let r2 := reverseGrpcDeps ds r.2
    (r.1 ++ r2.1, r2.2)

end

mutual

/-- All file names occurring in the dependency tree, root first. -/
def treeNames : GFileDescriptor → List String
  | .node n ds => n :: treeNamesL ds

def treeNamesL : List GFileDescriptor → List String
  | [] => []
  | d :: ds => treeNames d ++ treeNamesL ds

end

mutual

/-- All subtrees (the files reachable from the root, with their dependency
trees), root first. -/
def subtrees : GFileDescriptor → List GFileDescriptor
  | .node n ds => .node n ds :: subtreesL ds

def subtreesL : List GFileDescriptor → List GFileDescriptor
  | [] => []
  | d :: ds => subtrees d ++ subtreesL ds

end

mutual

/-- No file's name reappears among its own transitive dependencies: the
graph presented by the tree has no dependency cycle through equal names. -/
def acyclicB : GFileDescriptor → Bool
  | .node n ds => !(decide (n ∈ treeNamesL ds)) && acyclicLB ds

def acyclicLB : List GFileDescriptor → Bool
  | [] => true
  | d :: ds => acyclicB d && acyclicLB ds

end

/- ---------- auxiliary notions used to state the properties ---------- -/

/-- k copies of "../", as accumulated by the import loop. -/
def upN : Nat → String
  | 0 => ""
  | k + 1 => "../" ++ upN k

/-- k applications of pathlib's .parent (dropping the last component). -/
def dropLastN : Nat → List String → List String
  | 0, l => l
  | k + 1, l => dropLastN k l.dropLast

/-- A processed set is dependency-closed for the ambient subtree collection S
when, whenever a file of S is processed, every name in its dependency tree
is processed as well. -/
def ClosedFor (S : List GFileDescriptor) (p : List String) : Prop :=
  ∀ s ∈ S, s.name ∈ p → ∀ y ∈ treeNames s, y ∈ p

/- ---------- concrete descriptors used to instantiate the theorems ---------- -/

/-- A file whose single message contains one group-kind field. -/
def groupFileExample : FileDescriptorProto :=
  ⟨"t.proto", "", "proto3", [],
    [.mk "M" [⟨"g", 1, TYPE_GROUP, "", 1, ⟨false⟩⟩] [] [] ⟨false⟩], [], []⟩

/-- The diamond dependency graph: a.proto imports b.proto and c.proto, both of
which import d.proto (the shared file appears once per path in the tree). -/
def dmD : GFileDescriptor := .node "d.proto" []

def dmB : GFileDescriptor := .node "b.proto" [dmD]

def dmC : GFileDescriptor := .node "c.proto" [dmD]

def dmA : GFileDescriptor := .node "a.proto" [dmB, dmC]

/- ---------- helper lemmas ---------- -/

/-- The processed set only grows. -/
theorem reverseGrpc_mono : ∀ t : GFileDescriptor,
    ∀ p x, x ∈ p → x ∈ (reverseGrpcDescriptor t p).2 :=
  @GFileDescriptor.rec
    (fun t => ∀ p x, x ∈ p → x ∈ (reverseGrpcDescriptor t p).2)
    (fun l => ∀ p x, x ∈ p → x ∈ (reverseGrpcDeps l p).2)
    (fun n ds ih => by
      intro p x hx
      by_cases hn : n ∈ p <;> simp [reverseGrpcDescriptor, hn]
      · exact hx
      · exact Or.inr (ih p x hx))
    (by intro p x hx; simpa [reverseGrpcDeps] using hx)
    (fun d ds ih1 ih2 => by
      intro p x hx
      simp only [reverseGrpcDeps]
      exact ih2 _ x (ih1 p x hx))

theorem reverseGrpcDeps_mono : ∀ l : List GFileDescriptor,
    ∀ p x, x ∈ p → x ∈ (reverseGrpcDeps l p).2 := by
  intro l
  induction l with
  | nil => intro p x hx; simpa [reverseGrpcDeps] using hx
  | cons d ds ih =>
    intro p x hx
    simp only [reverseGrpcDeps]
    exact ih _ x (reverseGrpc_mono d p x hx)







/-- After the walk, the root's name is in the processed set. -/
theorem reverseGrpc_name_mem (t : GFileDescriptor) (p : List String) :
    t.name ∈ (reverseGrpcDescriptor t p).2 := by
  cases t with
  | node n ds =>
    by_cases hn : n ∈ p <;> simp [reverseGrpcDescriptor, hn, GFileDescriptor.name]

theorem reverseGrpcDeps_name_mem (l : List GFileDescriptor) (p : List String) :
    ∀ d ∈ l, d.name ∈ (reverseGrpcDeps l p).2 := by
  induction l generalizing p with
  | nil => simp
  | cons d ds ih =>
    intro e he
    simp only [reverseGrpcDeps]
    rcases List.mem_cons.mp he with h | h
    · subst h
      exact reverseGrpcDeps_mono ds _ _ (reverseGrpc_name_mem e p)
    · exact ih _ e h

@[simp] theorem GFileDescriptor.name_node (n : String) (ds : List GFileDescriptor) :
    (GFileDescriptor.node n ds).name = n := rfl

@[simp] theorem GFileDescriptor.dependencies_node (n : String) (ds : List GFileDescriptor) :
    (GFileDescriptor.node n ds).dependencies = ds := rfl

/-- The processed set after a walk is the old set plus the emitted names. -/
theorem reverseGrpc_processed_iff : ∀ t : GFileDescriptor, ∀ p x,
    x ∈ (reverseGrpcDescriptor t p).2 ↔
      (x ∈ (reverseGrpcDescriptor t p).1.map GFileDescriptor.name ∨ x ∈ p) :=
  @GFileDescriptor.rec
    (fun t => ∀ p x, x ∈ (reverseGrpcDescriptor t p).2 ↔
      (x ∈ (reverseGrpcDescriptor t p).1.map GFileDescriptor.name ∨ x ∈ p))
    (fun l => ∀ p x, x ∈ (reverseGrpcDeps l p).2 ↔
      (x ∈ (reverseGrpcDeps l p).1.map GFileDescriptor.name ∨ x ∈ p))
    (fun n ds ih => by
      intro p x
      by_cases hn : n ∈ p
      · simp [reverseGrpcDescriptor, hn]
      · simp only [reverseGrpcDescriptor, if_neg hn, List.mem_cons, List.map_append,
          List.map_cons, List.map_nil, List.mem_append, List.mem_singleton,
          GFileDescriptor.name_node, ih p x]
        tauto)
    (by intro p x; simp [reverseGrpcDeps])
    (fun d ds ih1 ih2 => by
      intro p x
      simp only [reverseGrpcDeps, List.map_append, List.mem_append]
      rw [ih2 (reverseGrpcDescriptor d p).2 x, ih1 p x]
      tauto)

theorem reverseGrpcDeps_processed_iff (l : List GFileDescriptor) (p : List String) (x : String) :
    x ∈ (reverseGrpcDeps l p).2 ↔
      (x ∈ (reverseGrpcDeps l p).1.map GFileDescriptor.name ∨ x ∈ p) := by
  induction l generalizing p with
  | nil => simp [reverseGrpcDeps]
  | cons d ds ih =>
    simp only [reverseGrpcDeps, List.map_append, List.mem_append]
    rw [ih (reverseGrpcDescriptor d p).2, reverseGrpc_processed_iff d p x]
    tauto

/-- Every emitted file is one of the files in the dependency tree. -/
theorem reverseGrpc_out_sub : ∀ t : GFileDescriptor, ∀ p x,
    x ∈ (reverseGrpcDescriptor t p).1.map GFileDescriptor.name → x ∈ treeNames t :=
  @GFileDescriptor.rec
    (fun t => ∀ p x, x ∈ (reverseGrpcDescriptor t p).1.map GFileDescriptor.name →
      x ∈ treeNames t)
    (fun l => ∀ p x, x ∈ (reverseGrpcDeps l p).1.map GFileDescriptor.name →
      x ∈ treeNamesL l)
    (fun n ds ih => by
      intro p x hx
      by_cases hn : n ∈ p
      · simp [reverseGrpcDescriptor, hn] at hx
      · simp only [reverseGrpcDescriptor, if_neg hn, List.map_append, List.map_cons,
          List.map_nil, List.mem_append, List.mem_singleton, GFileDescriptor.name_node] at hx
        rcases hx with hx | hx
        · exact List.mem_cons_of_mem _ (ih p x hx)
        · simp [treeNames, hx])
    (by intro p x hx; simp [reverseGrpcDeps] at hx)
    (fun d ds ih1 ih2 => by
      intro p x hx
      simp only [reverseGrpcDeps, List.map_append, List.mem_append] at hx
      simp only [treeNamesL, List.mem_append]
      rcases hx with hx | hx
      · exact Or.inl (ih1 p x hx)
      · exact Or.inr (ih2 _ x hx))

theorem reverseGrpcDeps_out_sub (l : List GFileDescriptor) (p : List String) (x : String) :
    x ∈ (reverseGrpcDeps l p).1.map GFileDescriptor.name → x ∈ treeNamesL l := by
  induction l generalizing p with
  | nil => intro hx; simp [reverseGrpcDeps] at hx
  | cons d ds ih =>
    intro hx
    simp only [reverseGrpcDeps, List.map_append, List.mem_append] at hx
    simp only [treeNamesL, List.mem_append]
    rcases hx with hx | hx
    · exact Or.inl (reverseGrpc_out_sub d p x hx)
    · exact Or.inr (ih _ hx)

/-- With an acyclic tree, emitted names are distinct and none was processed
before. -/
theorem reverseGrpc_nodup_fresh : ∀ t : GFileDescriptor, ∀ p, acyclicB t = true →
    ((reverseGrpcDescriptor t p).1.map GFileDescriptor.name).Nodup ∧
    ∀ x ∈ (reverseGrpcDescriptor t p).1.map GFileDescriptor.name, x ∉ p :=
  @GFileDescriptor.rec
    (fun t => ∀ p, acyclicB t = true →
      ((reverseGrpcDescriptor t p).1.map GFileDescriptor.name).Nodup ∧
      ∀ x ∈ (reverseGrpcDescriptor t p).1.map GFileDescriptor.name, x ∉ p)
    (fun l => ∀ p, acyclicLB l = true →
      ((reverseGrpcDeps l p).1.map GFileDescriptor.name).Nodup ∧
      ∀ x ∈ (reverseGrpcDeps l p).1.map GFileDescriptor.name, x ∉ p)
    (fun n ds ih => by
      intro p hacy
      simp only [acyclicB, Bool.and_eq_true, Bool.not_eq_true', decide_eq_false_iff_not] at hacy
      obtain ⟨hn_notin, hacyl⟩ := hacy
      by_cases hn : n ∈ p
      · simp [reverseGrpcDescriptor, hn]
      · obtain ⟨ihnodup, ihfresh⟩ := ih p hacyl
        have hnout : n ∉ (reverseGrpcDeps ds p).1.map GFileDescriptor.name := by
          intro hmem
          exact hn_notin (reverseGrpcDeps_out_sub ds p n hmem)
        constructor
        · simp only [reverseGrpcDescriptor, if_neg hn, List.map_append, List.map_cons,
            List.map_nil, GFileDescriptor.name_node]
          rw [List.nodup_append]
          refine ⟨ihnodup, List.nodup_singleton n, ?_⟩
          intro a ha
          simp only [List.mem_singleton]
          intro heq
          exact hnout (heq ▸ ha)
        · intro x hx
          simp only [reverseGrpcDescriptor, if_neg hn, List.map_append, List.map_cons,
            List.map_nil, List.mem_append, List.mem_singleton,
            GFileDescriptor.name_node] at hx
          rcases hx with hx | hx
          · exact ihfresh x hx
          · exact hx ▸ hn)
    (by intro p _; simp [reverseGrpcDeps])
    (fun d ds ih1 ih2 => by
      intro p hacy
      simp only [acyclicLB, Bool.and_eq_true] at hacy
      obtain ⟨hacy1, hacy2⟩ := hacy
      obtain ⟨nodup1, fresh1⟩ := ih1 p hacy1
      obtain ⟨nodup2, fresh2⟩ := ih2 (reverseGrpcDescriptor d p).2 hacy2
      constructor
      · simp only [reverseGrpcDeps, List.map_append]
        rw [List.nodup_append]
        refine ⟨nodup1, nodup2, ?_⟩
        intro a ha hb
        have : a ∈ (reverseGrpcDescriptor d p).2 :=
          (reverseGrpc_processed_iff d p a).mpr (Or.inl ha)
        exact fresh2 a hb this
      · intro x hx
        simp only [reverseGrpcDeps, List.map_append, List.mem_append] at hx
        rcases hx with hx | hx
        · exact fresh1 x hx
        · intro hxp
          exact fresh2 x hx (reverseGrpc_mono d p x hxp))

/-- Import-before-use: wherever the output is split around an emitted file,
each of that file's dependencies was either already processed before the call
or emitted earlier in the output. -/
theorem reverseGrpc_ordered : ∀ t : GFileDescriptor, ∀ p pre x post,
    (reverseGrpcDescriptor t p).1 = pre ++ x :: post →
    ∀ d ∈ x.dependencies, d.name ∈ p ∨ d.name ∈ pre.map GFileDescriptor.name :=
  @GFileDescriptor.rec
    (fun t => ∀ p pre x post, (reverseGrpcDescriptor t p).1 = pre ++ x :: post →
      ∀ d ∈ x.dependencies, d.name ∈ p ∨ d.name ∈ pre.map GFileDescriptor.name)
    (fun l => ∀ p pre x post, (reverseGrpcDeps l p).1 = pre ++ x :: post →
      ∀ d ∈ x.dependencies, d.name ∈ p ∨ d.name ∈ pre.map GFileDescriptor.name)
    (fun n ds ih => by
      intro p pre x post hsplit d hd
      by_cases hn : n ∈ p
      · simp [reverseGrpcDescriptor, hn] at hsplit
      · simp only [reverseGrpcDescriptor, if_neg hn] at hsplit
        rcases List.append_eq_append_iff.mp hsplit with ⟨a', ha1, ha2⟩ | ⟨c', hc1, hc2⟩
        · cases a' with
          | cons y ys => simp at ha2
          | nil =>
            simp only [List.append_nil] at ha1
            simp only [List.nil_append, List.cons.injEq] at ha2
            obtain ⟨hx, _⟩ := ha2
            subst hx
            subst ha1
            simp only [GFileDescriptor.dependencies_node] at hd
            have hmem : d.name ∈ (reverseGrpcDeps ds p).2 :=
              reverseGrpcDeps_name_mem ds p d hd
            rcases (reverseGrpcDeps_processed_iff ds p d.name).mp hmem with h | h
            · exact Or.inr h
            · exact Or.inl h
        · cases c' with
          | nil =>
            simp only [List.append_nil] at hc1
            simp only [List.nil_append, List.cons.injEq] at hc2
            obtain ⟨hx, _⟩ := hc2
            subst hx
            subst hc1
            simp only [GFileDescriptor.dependencies_node] at hd
            have hmem : d.name ∈ (reverseGrpcDeps ds p).2 :=
              reverseGrpcDeps_name_mem ds p d hd
            rcases (reverseGrpcDeps_processed_iff ds p d.name).mp hmem with h | h
            · exact Or.inr h
            · exact Or.inl h
          | cons y ys =>
            simp only [List.cons_append, List.cons.injEq] at hc2
            obtain ⟨hy, _⟩ := hc2
            subst hy
            exact ih p pre x ys hc1 d hd)
    (by
      intro p pre x post hsplit d _
      simp only [reverseGrpcDeps] at hsplit
      exact absurd hsplit.symm (List.append_ne_nil_of_right_ne_nil pre (List.cons_ne_nil x post)))
    (fun e es ih1 ih2 => by
      intro p pre x post hsplit d hd
      simp only [reverseGrpcDeps] at hsplit
      rcases List.append_eq_append_iff.mp hsplit with ⟨a', ha1, ha2⟩ | ⟨c', hc1, hc2⟩
      · subst ha1
        rcases ih2 (reverseGrpcDescriptor e p).2 a' x post ha2 d hd with h | h
        · rcases (reverseGrpc_processed_iff e p d.name).mp h with h2 | h2
          · exact Or.inr (by simp only [List.map_append, List.mem_append]; exact Or.inl h2)
          · exact Or.inl h2
        · exact Or.inr (by simp only [List.map_append, List.mem_append]; exact Or.inr h)
      · cases c' with
        | nil =>
          simp only [List.append_nil] at hc1
          subst hc1
          rcases ih2 (reverseGrpcDescriptor e p).2 [] x post (by simpa using hc2.symm) d hd with h | h
          · rcases (reverseGrpc_processed_iff e p d.name).mp h with h2 | h2
            · exact Or.inr h2
            · exact Or.inl h2
          · simp at h
        | cons y ys =>
          simp only [List.cons_append, List.cons.injEq] at hc2
          obtain ⟨hy, _⟩ := hc2
          subst hy
          exact ih1 p pre x ys hc1 d hd)

/-- Completeness: when equal names mean equal dependency trees (the source's
name-uniqueness invariant), the walk starting from a dependency-closed
processed set covers every name in the tree, and preserves closure. -/
theorem reverseGrpc_complete (S : List GFileDescriptor)
    (hcoh : ∀ s₁ ∈ S, ∀ s₂ ∈ S, GFileDescriptor.name s₁ = GFileDescriptor.name s₂ → s₁ = s₂) :
    ∀ t : GFileDescriptor, ∀ p, subtrees t ⊆ S → ClosedFor S p →
      (∀ y ∈ treeNames t, y ∈ (reverseGrpcDescriptor t p).2) ∧
      ClosedFor S (reverseGrpcDescriptor t p).2 :=
  @GFileDescriptor.rec
    (fun t => ∀ p, subtrees t ⊆ S → ClosedFor S p →
      (∀ y ∈ treeNames t, y ∈ (reverseGrpcDescriptor t p).2) ∧
      ClosedFor S (reverseGrpcDescriptor t p).2)
    (fun l => ∀ p, subtreesL l ⊆ S → ClosedFor S p →
      (∀ y ∈ treeNamesL l, y ∈ (reverseGrpcDeps l p).2) ∧
      ClosedFor S (reverseGrpcDeps l p).2)
    (fun n ds ih => by
      intro p hsub hcl
      have hself : GFileDescriptor.node n ds ∈ S := by
        apply hsub
        simp [subtrees]
      have hsubL : subtreesL ds ⊆ S := by
        intro s hs
        exact hsub (by simp [subtrees, hs])
      by_cases hn : n ∈ p
      · constructor
        · intro y hy
          simp only [reverseGrpcDescriptor, hn, if_pos]
          exact hcl _ hself hn y hy
        · simpa only [reverseGrpcDescriptor, hn, if_pos] using hcl
      · obtain ⟨ihcov, ihcl⟩ := ih p hsubL hcl
        constructor
        · intro y hy
          simp only [reverseGrpcDescriptor, if_neg hn, List.mem_cons]
          simp only [treeNames, List.mem_cons] at hy
          rcases hy with hy | hy
          · exact Or.inl hy
          · exact Or.inr (ihcov y hy)
        · intro s hsS hsname y hy
          simp only [reverseGrpcDescriptor, if_neg hn, List.mem_cons] at hsname ⊢
          rcases hsname with hsname | hsname
          · have : s = GFileDescriptor.node n ds := by
              apply hcoh s hsS _ hself
              simpa [GFileDescriptor.name_node] using hsname
            subst this
            simp only [treeNames, List.mem_cons] at hy
            rcases hy with hy | hy
            · exact Or.inl hy
            · exact Or.inr (ihcov y hy)
          · exact Or.inr (ihcl s hsS hsname y hy))
    (by
      intro p _ hcl
      refine ⟨?_, ?_⟩
      · intro y hy; simp [treeNamesL] at hy
      · simpa only [reverseGrpcDeps] using hcl)
    (fun e es ih1 ih2 => by
      intro p hsub hcl
      have hsub1 : subtrees e ⊆ S := by
        intro s hs
        exact hsub (by simp [subtreesL, hs])
      have hsub2 : subtreesL es ⊆ S := by
        intro s hs
        exact hsub (by simp [subtreesL, hs])
      obtain ⟨cov1, cl1⟩ := ih1 p hsub1 hcl
      obtain ⟨cov2, cl2⟩ := ih2 (reverseGrpcDescriptor e p).2 hsub2 cl1
      constructor
      · intro y hy
        simp only [treeNamesL, List.mem_append] at hy
        simp only [reverseGrpcDeps]
        rcases hy with hy | hy
        · exact reverseGrpcDeps_mono es _ y (cov1 y hy)
        · exact cov2 y hy
      · simpa only [reverseGrpcDeps] using cl2)


@[simp] theorem DescriptorProto.name_mk (n f nt et o) :
    (DescriptorProto.mk n f nt et o).name = n := rfl

@[simp] theorem DescriptorProto.field_mk (n f nt et o) :
    (DescriptorProto.mk n f nt et o).field = f := rfl

@[simp] theorem DescriptorProto.nested_type_mk (n f nt et o) :
    (DescriptorProto.mk n f nt et o).nested_type = nt := rfl

@[simp] theorem DescriptorProto.enum_type_mk (n f nt et o) :
    (DescriptorProto.mk n f nt et o).enum_type = et := rfl

@[simp] theorem DescriptorProto.options_mk (n f nt et o) :
    (DescriptorProto.mk n f nt et o).options = o := rfl

/-- Characterization of the import climb loop: it prepends exactly one "../"
per parent step, stopping at the first ancestor of current under which the
target is reachable. -/
theorem importUp_spec (target : List String) :
    ∀ n (current : List String), current.length ≤ n → ∀ up, ∃ k,
      importUp target current up = (up ++ upN k, dropLastN k current) ∧
      isRelativeTo target (dropLastN k current) = true ∧
      ∀ j, j < k → isRelativeTo target (dropLastN j current) = false := by
  intro n
  induction n with
  | zero =>
    intro current hlen up
    have hc : current = [] := List.length_eq_zero.mp (Nat.le_zero.mp hlen)
    subst hc
    refine ⟨0, ?_, by simp [dropLastN, isRelativeTo], by omega⟩
    rw [importUp]
    simp [isRelativeTo, upN, dropLastN]
  | succ m ih =>
    intro current hlen up
    by_cases hrel : isRelativeTo target current = true
    · refine ⟨0, ?_, by simpa [dropLastN] using hrel, by omega⟩
      rw [importUp]
      simp [hrel, upN, dropLastN]
    · have hlen2 : current.dropLast.length ≤ m := by
        rcases current with _ | ⟨c, cs⟩
        · exact absurd (by simp [isRelativeTo]) hrel
        · simp only [List.length_dropLast, List.length_cons] at hlen ⊢
          omega
      obtain ⟨k, hk, hrelk, hmin⟩ := ih current.dropLast hlen2 (up ++ "../")
      refine ⟨k + 1, ?_, ?_, ?_⟩
      · rw [importUp, dif_neg hrel, hk]
        simp [upN, dropLastN, String.append_assoc]
      · simpa [dropLastN] using hrelk
      · intro j hj
        rcases j with _ | j
        · simpa [dropLastN] using Bool.not_eq_true _ ▸ hrel
        · exact (by simpa [dropLastN] using hmin j (by omega))

/-- In the diamond graph every file name determines its dependency tree. -/
theorem dm_coherent :
    ∀ s₁ ∈ subtrees dmA, ∀ s₂ ∈ subtrees dmA,
      GFileDescriptor.name s₁ = GFileDescriptor.name s₂ → s₁ = s₂ := by
  intro s₁ h₁ s₂ h₂ hn
  rw [show subtrees dmA = [dmA, dmB, dmD, dmC, dmD] from rfl] at h₁ h₂
  fin_cases h₁ <;> fin_cases h₂ <;>
    first | rfl | exact absurd hn (by decide)

/- ---------- the claims ---------- -/

/-- C1: the scalar type table maps each recognized scalar type code to a fixed
keyword, but for type-code 12 (TYPE_BYTES) the rendered keyword is "byes", not
"bytes" as the claim states; a group field raises NameError("GROUP") and an
unrecognized type code raises KeyError rather than rendering. -/
theorem type_labels_bytes_is_byes :
    extractFieldTypeStr ⟨"payload", 4, TYPE_BYTES, "", 1, ⟨false⟩⟩ = .ok "byes" ∧
    "byes" ≠ "bytes" ∧
    extractFieldTypeStr ⟨"s", 1, TYPE_STRING, "", 1, ⟨false⟩⟩ = .ok "string" ∧
    extractFieldTypeStr ⟨"d", 2, TYPE_DOUBLE, "", 1, ⟨false⟩⟩ = .ok "double" ∧
    extractFieldTypeStr ⟨"g", 3, TYPE_GROUP, "", 1, ⟨false⟩⟩ = .error (.nameError "GROUP") ∧
    extractFieldTypeStr ⟨"u", 5, 19, "", 1, ⟨false⟩⟩ = .error .keyError :=
  ⟨rfl, by decide, rfl, rfl, rfl, rfl⟩

/-- C2: a field whose packed option is set is NOT rendered with
"[packed = true]": the source iterates field.options (a message object,
not the collected dict), so Python raises TypeError right after writing the
opening "["; a field with no set options gets no bracket text, as claimed. -/
theorem packed_option_render_raises :
    generateField ⟨"x", 1, TYPE_INT32, "", 1, ⟨true⟩⟩ [] "" =
      ("int32 x = 1[", some .typeError) ∧
    generateField ⟨"x", 1, TYPE_INT32, "", 1, ⟨false⟩⟩ [] "" =
      ("int32 x = 1;\n", none) :=
  ⟨by decide, by decide⟩

/-- C3: rendering a file whose message has a group-kind field aborts with
NameError("GROUP"), but the header and the message opening have already been
written through the open file handle, so a non-empty partial file is left on
disk - the render is not buffered in memory as the claim states. -/
theorem group_render_partial_file :
    generateFile groupFileExample =
      ("syntax = \"proto3\";\nmessage M\n\x7b\n", some (.nameError "GROUP")) ∧
    (generateFile groupFileExample).1 ≠ "" ∧
    runGenerateFile groupFileExample [] =
      [("protobuf/t.proto", "syntax = \"proto3\";\nmessage M\n\x7b\n")] :=
  ⟨by decide, by decide, by decide⟩

/-- C4: a message with a synthetic map-entry nested type (key string, value
int32) referenced by a sibling repeated field named counts renders as the
single line map<string,int32> counts = N; at indent 1, with no nested-message
declaration for the entry type and no repeated keyword. -/
theorem map_entry_collapse (msgName entryName typeName : String) (n keyNum valNum : Nat)
    (hseg : lastSegment typeName = entryName) :
    generateMessage (.mk msgName
        [⟨"counts", n, TYPE_MESSAGE, typeName, LABEL_REPEATED, ⟨false⟩⟩]
        [.mk entryName [⟨"key", keyNum, TYPE_STRING, "", 1, ⟨false⟩⟩,
          ⟨"value", valNum, TYPE_INT32, "", 1, ⟨false⟩⟩] [] [] ⟨true⟩] [] ⟨false⟩) "" =
      ("message " ++ (msgName ++ ("\n\x7b\n" ++ ("  map<string,int32> counts = " ++
        (toString n ++ ";\n\x7d\n")))), none) := by
  simp only [generateMessage, generateNested, generateFields, generateField,
    extractFieldTypeStr, extractMapShortcut, dictInsert, DescriptorProto.name_mk,
    DescriptorProto.field_mk, DescriptorProto.nested_type_mk, DescriptorProto.enum_type_mk,
    DescriptorProto.options_mk]
  simp [hseg, List.lookup, TYPE_MESSAGE, TYPE_ENUM, TYPE_GROUP, TYPE_STRING, TYPE_INT32,
    TYPE_DOUBLE, TYPE_FLOAT, TYPE_INT64, TYPE_UINT64, TYPE_FIXED64, TYPE_FIXED32, TYPE_BOOL,
    TYPE_BYTES, TYPE_UINT32, TYPE_SFIXED32, TYPE_SFIXED64, TYPE_SINT32, TYPE_SINT64,
    LABEL_REPEATED]
  simp [String.append_assoc, String.join]

theorem map_entry_collapse_witness :
    lastSegment ".test.CountsEntry" = "CountsEntry" ∧
    generateMessage (.mk "M"
        [⟨"counts", 7, TYPE_MESSAGE, ".test.CountsEntry", LABEL_REPEATED, ⟨false⟩⟩]
        [.mk "CountsEntry" [⟨"key", 1, TYPE_STRING, "", 1, ⟨false⟩⟩,
          ⟨"value", 2, TYPE_INT32, "", 1, ⟨false⟩⟩] [] [] ⟨true⟩] [] ⟨false⟩) "" =
      ("message M\n\x7b\n  map<string,int32> counts = 7;\n\x7d\n", none) :=
  ⟨by decide, map_entry_collapse "M" "CountsEntry" ".test.CountsEntry" 7 1 2 (by decide)⟩

/-- C5: over any acyclic dependency tree in which a file name determines its
dependency tree, the walk started with an empty processed set emits every
dependency of an emitted file before that file, emits no file name twice, and
emits exactly the set of names reachable from the root. -/
theorem walker_order_and_exactly_once (t : GFileDescriptor)
    (hacy : acyclicB t = true)
    (hcoh : ∀ s₁ ∈ subtrees t, ∀ s₂ ∈ subtrees t,
      GFileDescriptor.name s₁ = GFileDescriptor.name s₂ → s₁ = s₂) :
    (∀ pre x post, (reverseGrpcDescriptor t []).1 = pre ++ x :: post →
        ∀ d ∈ x.dependencies, d.name ∈ pre.map GFileDescriptor.name) ∧
    ((reverseGrpcDescriptor t []).1.map GFileDescriptor.name).Nodup ∧
    (∀ x, x ∈ (reverseGrpcDescriptor t []).1.map GFileDescriptor.name ↔ x ∈ treeNames t) := by
  refine ⟨?_, (reverseGrpc_nodup_fresh t [] hacy).1, ?_⟩
  · intro pre x post hsplit d hd
    rcases reverseGrpc_ordered t [] pre x post hsplit d hd with h | h
    · simp at h
    · exact h
  · intro x
    constructor
    · exact reverseGrpc_out_sub t [] x
    · intro hx
      have hcov := (reverseGrpc_complete (subtrees t) hcoh t []
        (fun s hs => hs) (by intro s _ h; simp at h)).1 x hx
      rcases (reverseGrpc_processed_iff t [] x).mp hcov with h | h
      · exact h
      · simp at h

theorem walker_order_and_exactly_once_witness :
    acyclicB dmA = true ∧
    (reverseGrpcDescriptor dmA []).1.map GFileDescriptor.name =
      ["d.proto", "b.proto", "c.proto", "a.proto"] ∧
    ((reverseGrpcDescriptor dmA []).1.map GFileDescriptor.name).Nodup ∧
    (∀ x, x ∈ (reverseGrpcDescriptor dmA []).1.map GFileDescriptor.name ↔ x ∈ treeNames dmA) :=
  ⟨by decide, by decide,
    (walker_order_and_exactly_once dmA (by decide) dm_coherent).2.1,
    (walker_order_and_exactly_once dmA (by decide) dm_coherent).2.2⟩

/-- C6: for a non-well-known dependency, the emitted import path prepends one
"../" per parent step from the importing file's output directory, stopping at
the first ancestor under which the dependency's canonical path protobuf/<dep>
is reachable; in particular a file in protobuf/a/b importing c/y.proto
gets the line: import "../../c/y.proto";. -/
theorem import_relative_path :
    (∀ (dep : String) (current_dir : List String), strStartsWith dep "google" = false →
      ∃ k, generateImport dep current_dir =
          "import \"" ++ upN k ++
            joinPath (("protobuf" :: splitPath dep).drop (dropLastN k current_dir).length) ++
            "\";\n" ∧
        isRelativeTo ("protobuf" :: splitPath dep) (dropLastN k current_dir) = true ∧
        ∀ j, j < k → isRelativeTo ("protobuf" :: splitPath dep) (dropLastN j current_dir) = false) ∧
    generateImport "c/y.proto" ["protobuf", "a", "b"] = "import \"../../c/y.proto\";\n" := by
  constructor
  · intro dep current_dir hdep
    obtain ⟨k, hk, hrel, hmin⟩ :=
      importUp_spec ("protobuf" :: splitPath dep) current_dir.length current_dir
        (Nat.le_refl _) ""
    refine ⟨k, ?_, hrel, hmin⟩
    rw [generateImport, if_neg (by simp [hdep])]
    dsimp only
    rw [hk]
    simp [String.append_assoc]
  · simp [generateImport, importUp, splitPath, joinPath, isRelativeTo, splitChars,
      strStartsWith, charsStart]

theorem import_relative_path_witness :
    strStartsWith "c/y.proto" "google" = false ∧
    (∃ k, generateImport "c/y.proto" ["protobuf", "a", "b"] =
        "import \"" ++ upN k ++
          joinPath (("protobuf" :: splitPath "c/y.proto").drop
            (dropLastN k ["protobuf", "a", "b"]).length) ++
          "\";\n" ∧
      isRelativeTo ("protobuf" :: splitPath "c/y.proto")
        (dropLastN k ["protobuf", "a", "b"]) = true ∧
      ∀ j, j < k → isRelativeTo ("protobuf" :: splitPath "c/y.proto")
        (dropLastN j ["protobuf", "a", "b"]) = false) ∧
    generateImport "c/y.proto" ["protobuf", "a", "b"] = "import \"../../c/y.proto\";\n" :=
  ⟨by decide, import_relative_path.1 "c/y.proto" ["protobuf", "a", "b"] (by decide),
    import_relative_path.2⟩

/-- C7: the stream keyword is prepended to the request type exactly when
client_streaming is set and to the response type exactly when server_streaming
is set, independently; each type is displayed by the last dot-separated
segment of its fully-qualified name. -/
theorem rpc_stream_rendering :
    (∀ (level nm inT outT : String),
      generateRpcMethod level ⟨nm, inT, outT, true, true⟩ =
        level ++ "rpc " ++ nm ++ " (" ++ "stream " ++ lastSegment inT ++ ") returns (" ++
          "stream " ++ lastSegment outT ++ ");\n" ∧
      generateRpcMethod level ⟨nm, inT, outT, false, false⟩ =
        level ++ "rpc " ++ nm ++ " (" ++ lastSegment inT ++ ") returns (" ++
          lastSegment outT ++ ");\n" ∧
      generateRpcMethod level ⟨nm, inT, outT, true, false⟩ =
        level ++ "rpc " ++ nm ++ " (" ++ "stream " ++ lastSegment inT ++ ") returns (" ++
          lastSegment outT ++ ");\n" ∧
      generateRpcMethod level ⟨nm, inT, outT, false, true⟩ =
        level ++ "rpc " ++ nm ++ " (" ++ lastSegment inT ++ ") returns (" ++
          "stream " ++ lastSegment outT ++ ");\n") ∧
    generateRpcMethod "  " ⟨"M", ".p.In", ".p.Out", true, true⟩ =
      "  rpc M (stream In) returns (stream Out);\n" ∧
    generateRpcMethod "  " ⟨"M", ".p.In", ".p.Out", false, false⟩ =
      "  rpc M (In) returns (Out);\n" := by
  refine ⟨fun level nm inT outT => ⟨?_, ?_, ?_, ?_⟩, by decide, by decide⟩ <;>
    simp [generateRpcMethod, String.append_assoc]

/-- C8: the rendered text is a function of the descriptor alone - rendering
the same descriptor into any clean output root stores the same bytes at the
file's output path. -/
theorem render_deterministic (file : FileDescriptorProto) (fs1 fs2 : FS)
    (h1 : cleanRoot fs1 = true) (h2 : cleanRoot fs2 = true) :
    lookupFile ("protobuf/" ++ file.name) (runGenerateFile file fs1) =
      lookupFile ("protobuf/" ++ file.name) (runGenerateFile file fs2) ∧
    lookupFile ("protobuf/" ++ file.name) (runGenerateFile file fs1) =
      some (generateFile file).1 := by
  have key : ∀ fs : FS, lookupFile ("protobuf/" ++ file.name) (runGenerateFile file fs) =
      some (generateFile file).1 := by
    intro fs
    simp [lookupFile, runGenerateFile, setFile, List.lookup]
  exact ⟨(key fs1).trans (key fs2).symm, key fs1⟩

theorem render_deterministic_witness :
    cleanRoot [] = true ∧
    lookupFile "protobuf/s.proto" (runGenerateFile ⟨"s.proto", "", "proto3", [], [], [], []⟩ []) =
      lookupFile "protobuf/s.proto" (runGenerateFile ⟨"s.proto", "", "proto3", [], [], [], []⟩ []) :=
  ⟨by decide,
    (render_deterministic ⟨"s.proto", "", "proto3", [], [], [], []⟩ [] [] (by decide) (by decide)).1⟩

/-- C9: the well-known skip is a plain string-prefix test on the dependency
name: any name starting with "google" - including googleapis/x.proto - emits
nothing, and every other dependency always emits exactly one import line. -/
theorem wellknown_import_skip (dep : String) (current_dir : List String) :
    (strStartsWith dep "google" = true → generateImport dep current_dir = "") ∧
    (strStartsWith dep "google" = false →
      ∃ rest, generateImport dep current_dir = "import \"" ++ rest ++ "\";\n") ∧
    generateImport "googleapis/x.proto" current_dir = "" := by
  refine ⟨?_, ?_, ?_⟩
  · intro h
    rw [generateImport, if_pos h]
  · intro h
    rw [generateImport, if_neg (by simp [h])]
    dsimp only
    refine ⟨(importUp ("protobuf" :: splitPath dep) current_dir "").1 ++
      joinPath (List.drop (importUp ("protobuf" :: splitPath dep) current_dir "").2.length
        ("protobuf" :: splitPath dep)), ?_⟩
    simp [String.append_assoc]
  · rw [generateImport, if_pos (by decide)]

theorem wellknown_import_skip_witness :
    strStartsWith "googleapis/x.proto" "google" = true ∧
    generateImport "googleapis/x.proto" ["protobuf"] = "" :=
  ⟨by decide, (wellknown_import_skip "googleapis/x.proto" ["protobuf"]).1 (by decide)⟩

/-- C10: the map shorthand reads exactly the first two entries of the
map-entry type's field sequence; with at least two fields both index accesses
succeed and the result is map<type-of-field0,type-of-field1>. -/
theorem map_shortcut_two_fields (m : DescriptorProto) (hlen : 2 ≤ m.field.length) :
    ((m.field.get? 0).isSome ∧ (m.field.get? 1).isSome) ∧
    ∀ f0 f1 k v, m.field.get? 0 = some f0 → m.field.get? 1 = some f1 →
      extractFieldTypeStr f0 = .ok k → extractFieldTypeStr f1 = .ok v →
      extractMapShortcut m = .ok ("map<" ++ k ++ "," ++ v ++ ">") := by
  rcases hf : m.field with _ | ⟨f0, _ | ⟨f1, rest⟩⟩
  · rw [hf] at hlen; simp at hlen
  · rw [hf] at hlen; simp at hlen
  · refine ⟨⟨by simp [hf], by simp [hf]⟩, ?_⟩
    intro g0 g1 k v hg0 hg1 hk hv
    simp only [List.get?] at hg0 hg1
    obtain rfl : f0 = g0 := by injection hg0
    obtain rfl : f1 = g1 := by injection hg1
    simp only [extractMapShortcut, hf]
    simp [hk, hv]

theorem map_shortcut_two_fields_witness :
    2 ≤ (DescriptorProto.mk "CountsEntry"
        [⟨"key", 1, TYPE_STRING, "", 1, ⟨false⟩⟩,
          ⟨"value", 2, TYPE_INT32, "", 1, ⟨false⟩⟩] [] [] ⟨true⟩).field.length ∧
    extractMapShortcut (DescriptorProto.mk "CountsEntry"
        [⟨"key", 1, TYPE_STRING, "", 1, ⟨false⟩⟩,
          ⟨"value", 2, TYPE_INT32, "", 1, ⟨false⟩⟩] [] [] ⟨true⟩) =
      .ok "map<string,int32>" :=
  ⟨by decide,
    (map_shortcut_two_fields (DescriptorProto.mk "CountsEntry"
        [⟨"key", 1, TYPE_STRING, "", 1, ⟨false⟩⟩,
          ⟨"value", 2, TYPE_INT32, "", 1, ⟨false⟩⟩] [] [] ⟨true⟩)
      (by decide)).2 _ _ "string" "int32" rfl rfl rfl rfl⟩
